import Mathlib

/-!
Shallow embedding of the workflow orchestration core of the `architect_ai`
repository (directory `python_agents/`), and proofs of the specification
claims about it.

Embedded source files:
  * `workflow_engine.py` — `PythonWorkflowEngine`: `start_workflow`,
    `_execute_workflow`, `get_workflow_status`, `get_all_workflows`,
    `cleanup_workflow`.
  * `main.py` — `ConnectionManager`: `connect`, `disconnect`, `broadcast`.

Python dictionaries are modelled as association lists with dict-faithful
operations (lookup of a key, assignment `d[k] = v`, deletion `del d[k]`,
`d.update(u)`); Python values occurring in workflow state are modelled by
the inductive type `Val` (None, strings, ints, string-valued dicts), with
Python truthiness.  The nondeterministic inputs of the engine (the uuid4
workflow id, the creation timestamp, and the outcome of the single agent
call `jira_analyst_agent.execute`) are passed as explicit parameters.
Concurrency is modelled by traces of atomic operations on the engine
(`Op`): `start_workflow`, the body of the `_execute_workflow` task, and
`cleanup_workflow`.
-/

namespace ArchitectAI

/-- A Python value as it occurs in the workflow state dictionaries:
`None`, a string, an int, or a string-valued dict (used for `metadata`). -/
inductive Val where
  | vnone : Val
  | vstr (s : String) : Val
  | vint (n : Int) : Val
  | vdict (fields : List (String × String)) : Val
deriving DecidableEq, Repr

/-- Python truthiness of a `Val` (`bool(v)`). -/
def Val.truthy : Val → Bool
  | .vnone => false
  | .vstr s => !s.isEmpty
  | .vint n => n != 0
  | .vdict f => !f.isEmpty

/-- Python `str(v)` for the values above (used by `str(error)` when the
engine records a failure message). -/
def Val.pyStr : Val → String
  | .vnone => "None"
  | .vstr s => s
  | .vint n => toString n
  | .vdict f =>
      "\x7b" ++ String.intercalate ", "
        (f.map (fun kv => "\x27" ++ kv.1 ++ "\x27: \x27" ++ kv.2 ++ "\x27")) ++ "\x7d"

/-- Truthiness of `d.get(k)`: `None` (absent key) is falsy. -/
def optTruthy : Option Val → Bool
  | none => false
  | some v => v.truthy

/-- Association-list model of a Python dict: lookup (`d.get(k)` /
`d[k]` read). The first binding of a key is its value. -/
def alGet {α : Type} : List (String × α) → String → Option α
  | [], _ => none
  | kv :: r, k => if kv.1 = k then some kv.2 else alGet r k

/-- Dict assignment `d[k] = v`: the key is rebound to `v`.  (Represented
by removing every binding of `k` and appending the new one; dict keys are
unique, so only the binding order — which no claim observes — differs.) -/
def alInsert {α : Type} (l : List (String × α)) (k : String) (v : α) : List (String × α) :=
  l.filter (fun kv => kv.1 != k) ++ [(k, v)]

/-- Dict deletion `del d[k]` (total: removes every binding of `k`). -/
def alDelete {α : Type} (l : List (String × α)) (k : String) : List (String × α) :=
  l.filter (fun kv => kv.1 != k)

/-- A workflow state dict (`WorkflowState` is a `TypedDict` in
`workflow_state.py`, i.e. a plain dict at runtime). -/
abbrev Dict := List (String × Val)

/-- `d.update(u)`: each binding of `u`, in order, is assigned into `d`
(`workflow_engine.py` line 79, `state.update(analyst_result)`). -/
def dictUpdate (d u : Dict) : Dict :=
  u.foldl (fun acc kv => alInsert acc kv.1 kv.2) d

/-- `AgentProgress` (pydantic model in `workflow_state.py`). -/
structure AgentProgress where
  workflow_id : String
  agent : String
  message : String
  progress : Int
  completed : Bool
deriving DecidableEq, Repr

/-- The observable outcome of the single awaited agent call
`jira_analyst_agent.execute(state, analyst_progress)`: either it raises an
exception carrying a message, or it returns a result dict; in both cases
it may first have reported progress events `(agent, message, progress)`
through the callback handed to it. -/
inductive AgentOutcome where
  | exc (events : List (String × String × Int)) (msg : String) : AgentOutcome
  | ret (events : List (String × String × Int)) (d : Dict) : AgentOutcome
deriving DecidableEq, Repr

/-- The `PythonWorkflowEngine` instance state: `active_workflows` (dict of
workflow id to state dict) and `progress_callbacks` (dict of workflow id to
callback; only the key set matters to the model — the callback itself is
the notifier broadcast, embedded separately). -/
structure Engine where
  active_workflows : List (String × Dict)
  progress_callbacks : List String
deriving DecidableEq, Repr

/-- A freshly constructed engine (`PythonWorkflowEngine.__init__`): both
registries empty. -/
def engine0 : Engine := ⟨[], []⟩

/-- The initial workflow state built by `start_workflow`
(`workflow_engine.py` lines 30–39). `now` is `datetime.now().isoformat()`. -/
def initialState (ticket now : String) : Dict :=
  [("jira_ticket_id", .vstr ticket),
   ("current_step", .vstr "jira_analyst"),
   ("currentAgent", .vstr "jira-analyst"),
   ("metadata", .vdict [("start_time", now),
                        ("engine_type", "langchain-python"),
                        ("version", "2.0")])]

/-- `progress_callbacks[workflow_id] = progress_callback` (key-set model). -/
def cbInsert (l : List String) (w : String) : List String :=
  if w ∈ l then l else l ++ [w]

/-- `start_workflow(jira_ticket_id, progress_callback)`
(`workflow_engine.py` lines 23–49): generates a workflow id (`wid`, the
uuid4 value, is a parameter), stores the initial state, registers the
callback when one was passed (`hasCb`), launches the execution task (the
task body is the separate operation `execute_workflow`), and returns the
id.  The state is in the store before the function returns. -/
def start_workflow (e : Engine) (wid ticket now : String) (hasCb : Bool) :
    Engine × String :=
  (⟨alInsert e.active_workflows wid (initialState ticket now),
    if hasCb then cbInsert e.progress_callbacks wid else e.progress_callbacks⟩,
   wid)

/-- Events forwarded by the local `analyst_progress` closure
(`workflow_engine.py` lines 64–71): each agent progress report is passed to
the registered callback (when there is one) as an `AgentProgress` with
`completed` defaulted to `False`. -/
def forwardEvents (hasCb : Bool) (wid : String)
    (evs : List (String × String × Int)) : List AgentProgress :=
  if hasCb then evs.map (fun x => ⟨wid, x.1, x.2.1, x.2.2, false⟩) else []

/-- The `except` branch of `_execute_workflow` (`workflow_engine.py` lines
108–120): record the error and the `failed` step into the state, and emit
the terminal failure event when a callback is registered. -/
def failPath (e : Engine) (wid : String) (state : Dict) (hasCb : Bool)
    (fwd : List AgentProgress) (msg : String) :
    Engine × List AgentProgress × List String :=
  let st1 := alInsert state "error" (.vstr msg)
  let st2 := alInsert st1 "current_step" (.vstr "failed")
  (⟨alInsert e.active_workflows wid st2, e.progress_callbacks⟩,
   fwd ++ (if hasCb then [⟨wid, "workflow", "Workflow failed: " ++ msg, 100, true⟩] else []),
   ["jira_analyst"])

/-- `_execute_workflow(workflow_id)` (`workflow_engine.py` lines 51–120),
the body of the task launched by `start_workflow`, given the outcome of
the one agent call it makes.  Returns the engine after the task, the
`AgentProgress` events delivered to the registered callback (in order),
and the labels of the agents that were invoked.  Mirrors the source:
early return when the id is not in the store; on a result dict whose
`error` key is truthy, `raise Exception(analyst_result['error'])`, caught
by the same function's `except`; otherwise `state.update(analyst_result)`,
`currentAgent = 'completed'`, the analyst completion event,
`current_step = 'completed'`, `currentAgent = 'completed'`, the workflow
completion event.  Only `jira_analyst_agent` is ever invoked (line 91:
"Skip other agents"). -/
def execute_workflow (e : Engine) (wid : String) (outcome : AgentOutcome) :
    Engine × List AgentProgress × List String :=
  match alGet e.active_workflows wid with
  | none => (e, [], [])
  | some state =>
    let hasCb := e.progress_callbacks.contains wid
    match outcome with
    | .exc evs msg => failPath e wid state hasCb (forwardEvents hasCb wid evs) msg
    | .ret evs d =>
      let fwd := forwardEvents hasCb wid evs
      if optTruthy (alGet d "error") then
        failPath e wid state hasCb fwd (((alGet d "error").getD .vnone).pyStr)
      else
        let st1 := dictUpdate state d
        let st2 := alInsert st1 "currentAgent" (.vstr "completed")
        let st3 := alInsert st2 "current_step" (.vstr "completed")
        let st4 := alInsert st3 "currentAgent" (.vstr "completed")
        (⟨alInsert e.active_workflows wid st4, e.progress_callbacks⟩,
         fwd ++ (if hasCb then
             [⟨wid, "jira-analyst", "Ticket data fetch and Excel export completed", 100, true⟩,
              ⟨wid, "workflow", "LangChain workflow completed successfully", 100, true⟩]
           else []),
         ["jira_analyst"])

/-- `get_workflow_status(workflow_id)` (`workflow_engine.py` lines 122–124). -/
def get_workflow_status (e : Engine) (wid : String) : Option Dict :=
  alGet e.active_workflows wid

/-- `get_all_workflows()` (`workflow_engine.py` lines 126–128): a copy of
the store. -/
def get_all_workflows (e : Engine) : List (String × Dict) :=
  e.active_workflows

/-- `cleanup_workflow(workflow_id)` (`workflow_engine.py` lines 130–135):
remove the id from both registries when present. -/
def cleanup_workflow (e : Engine) (wid : String) : Engine :=
  ⟨alDelete e.active_workflows wid, e.progress_callbacks.filter (fun w => w != wid)⟩

/-! ### Traces of engine operations

One atomic operation per public entry point; the `_execute_workflow` task
launched by `start_workflow` appears in the trace as its own `exec`
operation (carrying the agent-call outcome), reflecting that the caller of
`start_workflow` does not await it. -/

/-- One engine operation. -/
inductive Op where
  | wstart (wid ticket now : String) (hasCb : Bool) : Op
  | exec (wid : String) (outcome : AgentOutcome) : Op
  | cleanup (wid : String) : Op
deriving DecidableEq, Repr

/-- Effect of one operation on the engine. -/
def opStep (e : Engine) : Op → Engine
  | .wstart wid ticket now hasCb => (start_workflow e wid ticket now hasCb).1
  | .exec wid outcome => (execute_workflow e wid outcome).1
  | .cleanup wid => cleanup_workflow e wid

/-- Run a trace of operations from an engine. -/
def run (e : Engine) : List Op → Engine
  | [] => e
  | op :: rest => run (opStep e op) rest

/-- Number of `start_workflow` calls in a trace. -/
def countStarts : List Op → Nat
  | [] => 0
  | .wstart _ _ _ _ :: r => countStarts r + 1
  | _ :: r => countStarts r

/-- Number of `cleanup_workflow` calls in a trace. -/
def countCleanups : List Op → Nat
  | [] => 0
  | .cleanup _ :: r => countCleanups r + 1
  | _ :: r => countCleanups r

/-- Well-formed traces, relative to the ids already started and the ids
whose execution task has already run: every `start_workflow` uses a fresh
uuid4 id, and the execution task of a workflow runs exactly once, after
its `start_workflow`.  (These are facts of the source, not assumptions:
ids come from `uuid.uuid4()` and `start_workflow` launches exactly one
task per workflow.) -/
def wfb (started execed : List String) : List Op → Bool
  | [] => true
  | .wstart w _ _ _ :: r => !started.contains w && wfb (w :: started) execed r
  | .exec w _ :: r => started.contains w && !execed.contains w && wfb started (w :: execed) r
  | .cleanup _ :: r => wfb started execed r

/-- The started ids after a trace (accumulator form). -/
def startedAfter (s : List String) : List Op → List String
  | [] => s
  | .wstart w _ _ _ :: r => startedAfter (w :: s) r
  | _ :: r => startedAfter s r

/-- The executed ids after a trace (accumulator form). -/
def execedAfter (x : List String) : List Op → List String
  | [] => x
  | .exec w _ :: r => execedAfter (w :: x) r
  | _ :: r => execedAfter x r

/-- Traces whose `start_workflow` ids are fresh and whose `cleanup` calls
all target a currently stored id (evaluated against the evolving engine). -/
def goodTrace (e : Engine) : List Op → Bool
  | [] => true
  | op :: r =>
    (match op with
     | .wstart w _ _ _ => (alGet e.active_workflows w).isNone
     | .exec _ _ => true
     | .cleanup w => (alGet e.active_workflows w).isSome)
    && goodTrace (opStep e op) r

/-! ### The progress notifier (`ConnectionManager` in `main.py`)

Connections are modelled by identifiers; whether `connection.send_text`
raises for a given connection is a parameter `fails`.  `broadcast` returns
the manager after the call together with the list of `(connection,
message)` deliveries that succeeded. -/

/-- `ConnectionManager.__init__`: the subscriber list. -/
structure ConnectionManager where
  active_connections : List Nat
deriving DecidableEq, Repr

/-- `ConnectionManager.connect` (after `websocket.accept()`): append. -/
def connect (m : ConnectionManager) (c : Nat) : ConnectionManager :=
  ⟨m.active_connections ++ [c]⟩

/-- `ConnectionManager.disconnect`: remove the connection when present
(`list.remove` removes the first occurrence). -/
def disconnect (m : ConnectionManager) (c : Nat) : ConnectionManager :=
  if c ∈ m.active_connections then ⟨m.active_connections.erase c⟩ else m

/-- The `for connection in self.active_connections` loop of `broadcast`
(`main.py` lines 36–40): attempt delivery to each connection in order;
collect the successful deliveries and, in order, the connections whose
send raised. -/
def broadcastLoop (fails : Nat → Bool) (msg : String) :
    List Nat → List (Nat × String) × List Nat
  | [] => ([], [])
  | c :: rest =>
    let r := broadcastLoop fails msg rest
    if fails c then (r.1, c :: r.2) else ((c, msg) :: r.1, r.2)

/-- `ConnectionManager.broadcast` (`main.py` lines 33–44): the delivery
loop, then `disconnect` of each collected failed connection. -/
def broadcast (fails : Nat → Bool) (m : ConnectionManager) (msg : String) :
    ConnectionManager × List (Nat × String) :=
  let r := broadcastLoop fails msg m.active_connections
  (r.2.foldl disconnect m, r.1)

/-! ### The specified transition system of `current_step`

The spec names the steps `queued, step_1, step_2, step_3, completed,
failed`; the source's labels are `jira_analyst` (step_1, the ticket
analysis stage), `tech_architect` (step_2, architecture synthesis),
`product_manager` (step_3, requirements synthesis), `completed` and
`failed` (`workflow_state.py` line 14 lists the step labels; the source
has no label corresponding to `queued`). -/

/-- Modelled from the spec's words, for comparison with the code: the
edge set claimed for `current_step` — `queued→step_1→step_2→step_3→
completed`, plus a `failed` edge from every non-terminal state — written
over the source's step labels (with `"queued"` for the spec's extra
initial state). -/
def specClaimEdge : String → String → Bool
  | "queued", "jira_analyst" => true
  | "jira_analyst", "tech_architect" => true
  | "tech_architect", "product_manager" => true
  | "product_manager", "completed" => true
  | a, "failed" => a != "completed" && a != "failed"
  | _, _ => false

/-- The amended edge set: the spec's edges plus the short-circuit edge
`step_1 → completed` that the concrete pipeline takes when it stops after
the first stage. -/
def amendedEdge (a b : String) : Bool :=
  specClaimEdge a b || (a == "jira_analyst" && b == "completed")

/-- A terminal value of `current_step`. -/
def terminalStep (v : Option Val) : Bool :=
  v == some (.vstr "completed") || v == some (.vstr "failed")

/-- Invariant relating a reachable engine to the set `started` of ids
handed out by `start_workflow` and the set `execed` of ids whose
execution task has run: every stored id was started, and a stored
workflow whose task has not yet run still has its initial
`current_step = "jira_analyst"`. -/
def EngineInv (e : Engine) (started execed : List String) : Prop :=
  (∀ w, (alGet e.active_workflows w).isSome = true → w ∈ started) ∧
  (∀ w s, alGet e.active_workflows w = some s → w ∉ execed →
      alGet s "current_step" = some (.vstr "jira_analyst"))

/-! ### Dictionary lemmas -/

@[simp] theorem alGet_nil {α : Type} (k : String) :
    alGet ([] : List (String × α)) k = none := rfl

@[simp] theorem alGet_cons {α : Type} (kv : String × α) (r : List (String × α)) (k : String) :
    alGet (kv :: r) k = if kv.1 = k then some kv.2 else alGet r k := rfl

theorem alDelete_cons {α : Type} (kv : String × α) (r : List (String × α)) (k : String) :
    alDelete (kv :: r) k = if kv.1 = k then alDelete r k else kv :: alDelete r k := by
  simp only [alDelete, List.filter_cons]
  by_cases h : kv.1 = k <;> simp [h]

theorem alGet_append {α : Type} (l1 l2 : List (String × α)) (k : String) :
    alGet (l1 ++ l2) k = (alGet l1 k).or (alGet l2 k) := by
  induction l1 with
  | nil => simp
  | cons kv r ih =>
    by_cases h : kv.1 = k <;> simp [h, ih]

theorem alGet_delete_self {α : Type} (l : List (String × α)) (k : String) :
    alGet (alDelete l k) k = none := by
  induction l with
  | nil => rfl
  | cons kv r ih =>
    rw [alDelete_cons]
    by_cases h : kv.1 = k
    · rw [if_pos h]; exact ih
    · rw [if_neg h, alGet_cons, if_neg h]; exact ih

theorem alGet_delete_ne {α : Type} (l : List (String × α)) (k k2 : String)
    (h : k2 ≠ k) : alGet (alDelete l k) k2 = alGet l k2 := by
  induction l with
  | nil => rfl
  | cons kv r ih =>
    rw [alDelete_cons]
    by_cases hk : kv.1 = k
    · have hne : ¬kv.1 = k2 := fun he => h (he.symm.trans hk)
      rw [if_pos hk, ih, alGet_cons, if_neg hne]
    · rw [if_neg hk, alGet_cons, alGet_cons, ih]

theorem alGet_insert {α : Type} (l : List (String × α)) (k k2 : String) (v : α) :
    alGet (alInsert l k v) k2 = if k2 = k then some v else alGet l k2 := by
  unfold alInsert
  rw [show List.filter (fun kv => kv.1 != k) l = alDelete l k from rfl, alGet_append]
  by_cases h : k2 = k
  · subst h
    rw [alGet_delete_self]
    simp
  · have hne : ¬k = k2 := fun he => h he.symm
    rw [alGet_delete_ne l k k2 h, if_neg h]
    cases hg : alGet l k2 <;> simp [hne]

theorem alGet_eq_none_of_not_mem {α : Type} (l : List (String × α)) (k : String)
    (h : k ∉ l.map Prod.fst) : alGet l k = none := by
  induction l with
  | nil => rfl
  | cons kv r ih =>
    simp only [List.map_cons, List.mem_cons] at h
    push_neg at h
    rw [alGet_cons, if_neg (fun he => h.1 he.symm)]
    exact ih h.2

/-- The merge performed by `state.update(analyst_result)`: a key of the
update wins; any other key keeps its value from the base dict.  (The keys
of `u` are distinct, as they are for every Python dict.) -/
theorem alGet_dictUpdate (d u : Dict) (k : String)
    (hu : (u.map Prod.fst).Nodup) :
    alGet (dictUpdate d u) k = (alGet u k).or (alGet d k) := by
  induction u generalizing d with
  | nil => rfl
  | cons kv r ih =>
    simp only [List.map_cons, List.nodup_cons] at hu
    have step : dictUpdate d (kv :: r) = dictUpdate (alInsert d kv.1 kv.2) r := rfl
    rw [step, ih _ hu.2, alGet_insert, alGet_cons]
    by_cases h : kv.1 = k
    · have hr : alGet r k = none := alGet_eq_none_of_not_mem r k (h ▸ hu.1)
      simp [h, hr]
    · simp [h, Ne.symm h]

theorem alDelete_eq_of_alGet_none {α : Type} (l : List (String × α)) (k : String)
    (h : alGet l k = none) : alDelete l k = l := by
  induction l with
  | nil => rfl
  | cons kv r ih =>
    rw [alGet_cons] at h
    by_cases hk : kv.1 = k
    · rw [if_pos hk] at h
      exact absurd h (by simp)
    · rw [if_neg hk] at h
      rw [alDelete_cons, if_neg hk, ih h]

theorem cbInsert_contains (l : List String) (w : String) :
    (cbInsert l w).contains w = true := by
  unfold cbInsert
  by_cases h : w ∈ l
  · rw [if_pos h]
    exact List.elem_iff.mpr h
  · rw [if_neg h]
    exact List.elem_iff.mpr (by simp)

/-! ### Engine helper lemmas -/

/-- `_execute_workflow` touches no other workflow's entry. -/
theorem execute_workflow_other (e : Engine) (w : String) (o : AgentOutcome)
    (v : String) (hne : v ≠ w) :
    alGet (execute_workflow e w o).1.active_workflows v = alGet e.active_workflows v := by
  unfold execute_workflow
  cases hs : alGet e.active_workflows w with
  | none => rfl
  | some state =>
    cases o with
    | exc evs msg =>
      show alGet (alInsert _ w _) v = _
      rw [alGet_insert, if_neg hne]
    | ret evs d =>
      by_cases ht : optTruthy (alGet d "error")
      · simp only [ht, if_true]
        show alGet (alInsert _ w _) v = _
        rw [alGet_insert, if_neg hne]
      · simp only [ht, Bool.false_eq_true, if_false]
        show alGet (alInsert _ w _) v = _
        rw [alGet_insert, if_neg hne]

/-- `_execute_workflow` never registers or removes a callback. -/
theorem execute_workflow_callbacks (e : Engine) (w : String) (o : AgentOutcome) :
    (execute_workflow e w o).1.progress_callbacks = e.progress_callbacks := by
  unfold execute_workflow
  cases hs : alGet e.active_workflows w with
  | none => rfl
  | some state =>
    cases o with
    | exc evs msg => rfl
    | ret evs d =>
      by_cases ht : optTruthy (alGet d "error") <;> simp [ht, failPath]

/-- Equation: `_execute_workflow` on an id that is not stored is the
early-return no-op. -/
theorem execute_workflow_none (e : Engine) (w : String) (o : AgentOutcome)
    (hs : alGet e.active_workflows w = none) :
    execute_workflow e w o = (e, [], []) := by
  unfold execute_workflow
  rw [hs]

/-- Equation: the agent call raised an exception. -/
theorem execute_workflow_exc (e : Engine) (w : String) (state : Dict)
    (evs : List (String × String × Int)) (msg : String)
    (hs : alGet e.active_workflows w = some state) :
    execute_workflow e w (.exc evs msg) =
      failPath e w state (e.progress_callbacks.contains w)
        (forwardEvents (e.progress_callbacks.contains w) w evs) msg := by
  unfold execute_workflow
  rw [hs]

/-- Equation: the agent returned a dict with a truthy `error` value. -/
theorem execute_workflow_ret_err (e : Engine) (w : String) (state : Dict)
    (evs : List (String × String × Int)) (d : Dict)
    (hs : alGet e.active_workflows w = some state)
    (ht : optTruthy (alGet d "error") = true) :
    execute_workflow e w (.ret evs d) =
      failPath e w state (e.progress_callbacks.contains w)
        (forwardEvents (e.progress_callbacks.contains w) w evs)
        (((alGet d "error").getD .vnone).pyStr) := by
  unfold execute_workflow
  rw [hs]
  simp only [ht, if_true]

/-- Equation: the agent returned a dict without a truthy `error` value
(the success path). -/
theorem execute_workflow_ret_ok (e : Engine) (w : String) (state : Dict)
    (evs : List (String × String × Int)) (d : Dict)
    (hs : alGet e.active_workflows w = some state)
    (ht : optTruthy (alGet d "error") = false) :
    execute_workflow e w (.ret evs d) =
      (⟨alInsert e.active_workflows w
          (alInsert (alInsert (alInsert (dictUpdate state d)
              "currentAgent" (.vstr "completed"))
            "current_step" (.vstr "completed")) "currentAgent" (.vstr "completed")),
        e.progress_callbacks⟩,
       forwardEvents (e.progress_callbacks.contains w) w evs ++
         (if e.progress_callbacks.contains w then
            [⟨w, "jira-analyst", "Ticket data fetch and Excel export completed", 100, true⟩,
             ⟨w, "workflow", "LangChain workflow completed successfully", 100, true⟩]
          else []),
       ["jira_analyst"]) := by
  unfold execute_workflow
  rw [hs]
  simp only [ht, Bool.false_eq_true, if_false]

/-- After `_execute_workflow` runs on a stored workflow, the stored
`current_step` is `completed` or `failed`. -/
theorem execute_workflow_terminal (e : Engine) (w : String) (o : AgentOutcome)
    (state : Dict) (hs : alGet e.active_workflows w = some state) :
    ∃ s2, alGet (execute_workflow e w o).1.active_workflows w = some s2 ∧
      (alGet s2 "current_step" = some (.vstr "completed") ∨
       alGet s2 "current_step" = some (.vstr "failed")) := by
  cases o with
  | exc evs msg =>
    rw [execute_workflow_exc e w state evs msg hs]
    refine ⟨alInsert (alInsert state "error" (.vstr msg)) "current_step" (.vstr "failed"),
      ?_, Or.inr ?_⟩
    · show alGet (alInsert e.active_workflows w _) w = _
      rw [alGet_insert, if_pos rfl]
    · rw [alGet_insert, if_pos rfl]
  | ret evs d =>
    by_cases ht : optTruthy (alGet d "error")
    · rw [execute_workflow_ret_err e w state evs d hs ht]
      refine ⟨alInsert (alInsert state "error" (.vstr (((alGet d "error").getD .vnone).pyStr)))
        "current_step" (.vstr "failed"), ?_, Or.inr ?_⟩
      · show alGet (alInsert e.active_workflows w _) w = _
        rw [alGet_insert, if_pos rfl]
      · rw [alGet_insert, if_pos rfl]
    · rw [execute_workflow_ret_ok e w state evs d hs (by simpa using ht)]
      refine ⟨alInsert (alInsert (alInsert (dictUpdate state d)
          "currentAgent" (.vstr "completed")) "current_step" (.vstr "completed"))
          "currentAgent" (.vstr "completed"), ?_, Or.inl ?_⟩
      · show alGet (alInsert e.active_workflows w _) w = _
        rw [alGet_insert, if_pos rfl]
      · rw [alGet_insert, if_neg (by decide), alGet_insert, if_pos rfl]

/-! ### Claim theorems -/

/-- C2 (counterexample): `start_workflow` called with the empty — i.e.
malformed — ticket id does not fail: it creates and stores a workflow
whose state an immediate status query returns.  This refutes the claim
that validation rejects a malformed ticket id synchronously and that for
a malformed ticket id no workflow is ever created — `start_workflow`
(`workflow_engine.py` lines 23–49) performs no validation at all. -/
theorem start_workflow_accepts_empty_ticket :
    get_workflow_status
        (start_workflow engine0 "wid-1" "" "2024-01-01T00:00:00" false).1 "wid-1"
      = some (initialState "" "2024-01-01T00:00:00") := by
  rfl

/-- C2 (amended): `start_workflow` performs no validation of the ticket
id and never fails: for every ticket id — the empty string included — it
synchronously creates and stores the workflow state and returns the new
workflow identifier. -/
theorem start_workflow_never_fails (e : Engine) (wid ticket now : String)
    (hasCb : Bool) :
    get_workflow_status (start_workflow e wid ticket now hasCb).1 wid
        = some (initialState ticket now)
      ∧ (start_workflow e wid ticket now hasCb).2 = wid := by
  refine ⟨?_, rfl⟩
  show alGet (alInsert e.active_workflows wid (initialState ticket now)) wid = _
  rw [alGet_insert, if_pos rfl]

/-- C4: `start_workflow` stores the new workflow's initial state —
`current_step` set to the first stage's step label `jira_analyst` and
`currentAgent` to the first stage's agent label `jira-analyst` — before
it returns the identifier, so `get_workflow_status` called immediately
with the returned identifier finds the workflow (never not-found). -/
theorem start_workflow_immediately_visible (e : Engine)
    (wid ticket now : String) (hasCb : Bool) :
    get_workflow_status (start_workflow e wid ticket now hasCb).1
        ((start_workflow e wid ticket now hasCb).2)
      = some (initialState ticket now)
    ∧ alGet (initialState ticket now) "current_step" = some (.vstr "jira_analyst")
    ∧ alGet (initialState ticket now) "currentAgent" = some (.vstr "jira-analyst") := by
  refine ⟨?_, rfl, rfl⟩
  show alGet (alInsert e.active_workflows wid (initialState ticket now)) wid = _
  rw [alGet_insert, if_pos rfl]

/-- C7: the merge of a successful stage's returned fields into the
accumulated state (`state.update(analyst_result)`) is a shallow union: a
key returned by the stage overwrites any existing key of the same name,
and every other existing key keeps its value.  (`hu`: a Python dict's
keys are distinct.) -/
theorem stage_merge_shallow_union (d u : Dict) (k : String)
    (hu : (u.map Prod.fst).Nodup) :
    (∀ v, alGet u k = some v → alGet (dictUpdate d u) k = some v)
    ∧ (alGet u k = none → alGet (dictUpdate d u) k = alGet d k) := by
  constructor
  · intro v hv
    rw [alGet_dictUpdate d u k hu, hv]
    rfl
  · intro hv
    rw [alGet_dictUpdate d u k hu, hv]
    rfl

/-- Witness for C7 at a concrete instance: updating
`{a: 1, b: 2}` with `{b: 3, c: 4}` overwrites `b` and keeps `a`. -/
theorem stage_merge_shallow_union_witness :
    alGet (dictUpdate [("a", .vint 1), ("b", .vint 2)]
        [("b", .vint 3), ("c", .vint 4)]) "b" = some (.vint 3)
    ∧ alGet (dictUpdate [("a", .vint 1), ("b", .vint 2)]
        [("b", .vint 3), ("c", .vint 4)]) "a" = some (.vint 1) :=
  ⟨(stage_merge_shallow_union [("a", .vint 1), ("b", .vint 2)]
      [("b", .vint 3), ("c", .vint 4)] "b" (by decide)).1 (.vint 3) (by decide),
   by
    rw [(stage_merge_shallow_union [("a", .vint 1), ("b", .vint 2)]
      [("b", .vint 3), ("c", .vint 4)] "a" (by decide)).2 (by decide)]
    decide⟩

/-- C8: `cleanup_workflow` removes the workflow's entry when present and
leaves every other entry alone; afterwards a status query for that id
returns not-found, exactly as for an id that never existed — and when the
id is absent the stored workflows are unchanged (no-op). -/
theorem cleanup_workflow_removes_entry (e : Engine) (wid w : String) :
    (get_workflow_status (cleanup_workflow e wid) w
      = if w = wid then none else get_workflow_status e w)
    ∧ (get_workflow_status e wid = none →
        (cleanup_workflow e wid).active_workflows = e.active_workflows) := by
  constructor
  · show alGet (alDelete e.active_workflows wid) w = _
    by_cases h : w = wid
    · rw [if_pos h, h, alGet_delete_self]
    · rw [if_neg h, alGet_delete_ne _ _ _ h]
      rfl
  · intro h
    exact alDelete_eq_of_alGet_none _ _ h

/-- Witness for C8 at a concrete instance: cleaning up an absent id is a
no-op on the store, and cleaning up a present id makes its status query
not-found. -/
theorem cleanup_workflow_removes_entry_witness :
    (cleanup_workflow (start_workflow engine0 "a" "T-1" "t0" false).1
        "b").active_workflows
      = (start_workflow engine0 "a" "T-1" "t0" false).1.active_workflows
    ∧ get_workflow_status
        (cleanup_workflow (start_workflow engine0 "a" "T-1" "t0" false).1 "a") "a"
      = none :=
  ⟨(cleanup_workflow_removes_entry
      (start_workflow engine0 "a" "T-1" "t0" false).1 "b" "b").2 (by decide),
   by
    rw [(cleanup_workflow_removes_entry
      (start_workflow engine0 "a" "T-1" "t0" false).1 "a" "a").1]
    decide⟩

/-! ### Notifier lemmas -/

/-- The broadcast loop delivers the message to exactly the non-failing
connections, in order, and collects exactly the failing ones. -/
theorem broadcastLoop_spec (fails : Nat → Bool) (msg : String) (l : List Nat) :
    broadcastLoop fails msg l =
      ((l.filter (fun c => !fails c)).map (fun c => (c, msg)), l.filter fails) := by
  induction l with
  | nil => rfl
  | cons c r ih =>
    simp only [broadcastLoop, ih, List.filter_cons]
    by_cases h : fails c <;> simp [h]

theorem disconnect_eq (m : ConnectionManager) (c : Nat) :
    disconnect m c = ⟨m.active_connections.erase c⟩ := by
  unfold disconnect
  by_cases h : c ∈ m.active_connections
  · rw [if_pos h]
  · rw [if_neg h, List.erase_of_not_mem h]

theorem foldl_disconnect (d : List Nat) (m : ConnectionManager) :
    d.foldl disconnect m = ⟨d.foldl List.erase m.active_connections⟩ := by
  induction d generalizing m with
  | nil => rfl
  | cons c d2 ih =>
    rw [List.foldl_cons, List.foldl_cons, disconnect_eq, ih]

theorem foldl_erase_cons_of_ne (c : Nat) (r d : List Nat)
    (h : ∀ x ∈ d, x ≠ c) :
    d.foldl List.erase (c :: r) = c :: d.foldl List.erase r := by
  induction d generalizing r with
  | nil => rfl
  | cons x d2 ih =>
    rw [List.foldl_cons, List.foldl_cons,
        List.erase_cons_tail (by simpa using Ne.symm (h x (List.mem_cons_self x d2))),
        ih (r.erase x) (fun y hy => h y (List.mem_cons_of_mem x hy))]

/-- Erasing, from a list, every element that fails leaves exactly the
non-failing ones (the subscriber list after `broadcast`'s removal loop). -/
theorem foldl_erase_failing (fails : Nat → Bool) (l : List Nat) :
    (l.filter fails).foldl List.erase l = l.filter (fun c => !fails c) := by
  induction l with
  | nil => rfl
  | cons c r ih =>
    rw [List.filter_cons]
    by_cases h : fails c
    · rw [if_pos h, List.foldl_cons, List.erase_cons_head,
          List.filter_cons, if_neg (by simp [h])]
      exact ih
    · rw [if_neg (by simp [h]),
          foldl_erase_cons_of_ne c r _
            (fun x hx => fun he => h (he ▸ (List.mem_filter.mp hx).2)),
          ih, List.filter_cons, if_pos (by simp [h])]

/-- `broadcast` in closed form: it succeeds for the non-failing
connections (in order) and the manager afterwards retains exactly the
non-failing connections. -/
theorem broadcast_spec (fails : Nat → Bool) (m : ConnectionManager) (msg : String) :
    broadcast fails m msg =
      (⟨m.active_connections.filter (fun c => !fails c)⟩,
       (m.active_connections.filter (fun c => !fails c)).map (fun c => (c, msg))) := by
  simp only [broadcast, broadcastLoop_spec, foldl_disconnect, foldl_erase_failing]

/-- C5: `broadcast` delivers the message to every registered connection
whose send does not fault, even in the presence of faulting connections;
a connection whose send faults is removed from the subscriber list by
that same `broadcast` call and receives nothing from any later
`broadcast`; and the fault never propagates — `broadcast` always returns
a manager and its delivery list. -/
theorem broadcast_isolates_failing_subscriber (fails : Nat → Bool)
    (m : ConnectionManager) (msg msg2 : String) (c : Nat)
    (hc : c ∈ m.active_connections) :
    (fails c = false → (c, msg) ∈ (broadcast fails m msg).2)
    ∧ (fails c = true →
        c ∉ (broadcast fails m msg).1.active_connections
        ∧ ∀ s, (c, s) ∉ (broadcast fails (broadcast fails m msg).1 msg2).2) := by
  rw [broadcast_spec]
  constructor
  · intro hok
    exact List.mem_map.mpr ⟨c, List.mem_filter.mpr ⟨hc, by simp [hok]⟩, rfl⟩
  · intro hbad
    have hout : c ∉ m.active_connections.filter (fun c => !fails c) := by
      intro hmem
      have := (List.mem_filter.mp hmem).2
      simp [hbad] at this
    refine ⟨hout, ?_⟩
    intro s hmem
    rw [broadcast_spec] at hmem
    rcases List.mem_map.mp hmem with ⟨c2, hc2, he⟩
    have : c2 = c := congrArg Prod.fst he
    subst this
    exact hout (List.mem_of_mem_filter hc2)

/-- Witness for C5: with subscribers `[0, 1]` where `0`'s delivery
faults, the healthy subscriber `1` still receives the event, and `0` is
removed by the first broadcast. -/
theorem broadcast_isolates_failing_subscriber_witness :
    ((1, "evt") ∈ (broadcast (fun c => c == 0) ⟨[0, 1]⟩ "evt").2)
    ∧ (0 ∉ (broadcast (fun c => c == 0) ⟨[0, 1]⟩ "evt").1.active_connections) :=
  ⟨(broadcast_isolates_failing_subscriber (fun c => c == 0) ⟨[0, 1]⟩
      "evt" "evt2" 1 (by decide)).1 (by decide),
   ((broadcast_isolates_failing_subscriber (fun c => c == 0) ⟨[0, 1]⟩
      "evt" "evt2" 0 (by decide)).2 (by decide)).1⟩

/-- C6: when the first stage succeeds, the engine marks
`current_step = completed` (and `currentAgent = completed`) without
invoking the second (architecture) or third (requirements) stage — the
only agent invoked is `jira_analyst` — and at every key other than the
engine's two bookkeeping keys `current_step` and `currentAgent` the final
stored state is exactly the initial state merged with the stage's
returned fields (a returned key wins, any other key keeps its initial
value, and no other key exists). -/
theorem pipeline_short_circuits_after_first_stage (e : Engine)
    (wid ticket now : String) (hasCb : Bool)
    (evs : List (String × String × Int)) (d : Dict)
    (hd : optTruthy (alGet d "error") = false)
    (hu : (d.map Prod.fst).Nodup) :
    (execute_workflow (start_workflow e wid ticket now hasCb).1 wid
        (.ret evs d)).2.2 = ["jira_analyst"]
    ∧ ∃ s, get_workflow_status
          (execute_workflow (start_workflow e wid ticket now hasCb).1 wid
            (.ret evs d)).1 wid = some s
        ∧ alGet s "current_step" = some (.vstr "completed")
        ∧ alGet s "currentAgent" = some (.vstr "completed")
        ∧ ∀ k, k ≠ "current_step" → k ≠ "currentAgent" →
            alGet s k = (alGet d k).or (alGet (initialState ticket now) k) := by
  have hstore : alGet (start_workflow e wid ticket now hasCb).1.active_workflows wid
      = some (initialState ticket now) := by
    show alGet (alInsert e.active_workflows wid (initialState ticket now)) wid = _
    rw [alGet_insert, if_pos rfl]
  rw [execute_workflow_ret_ok _ _ _ evs d hstore hd]
  refine ⟨rfl, alInsert (alInsert (alInsert (dictUpdate (initialState ticket now) d)
      "currentAgent" (.vstr "completed")) "current_step" (.vstr "completed"))
      "currentAgent" (.vstr "completed"), ?_, ?_, ?_, ?_⟩
  · show alGet (alInsert _ wid _) wid = _
    rw [alGet_insert, if_pos rfl]
  · rw [alGet_insert, if_neg (by decide), alGet_insert, if_pos rfl]
  · rw [alGet_insert, if_pos rfl]
  · intro k hk1 hk2
    rw [alGet_insert, if_neg hk2, alGet_insert, if_neg hk1, alGet_insert, if_neg hk2,
        alGet_dictUpdate _ _ _ hu]

/-- Witness for C6 (the spec's scenario): ticket `ABC-1`, a first stage
returning `{x: 1}` — the final status shows `current_step = completed`
and the accumulated result `x = 1`. -/
theorem pipeline_short_circuits_after_first_stage_witness :
    ∃ s, get_workflow_status
          (execute_workflow (start_workflow engine0 "w1" "ABC-1" "t0" false).1 "w1"
            (.ret [] [("x", .vint 1)])).1 "w1" = some s
        ∧ alGet s "current_step" = some (.vstr "completed")
        ∧ alGet s "x" = some (.vint 1) := by
  obtain ⟨-, s, hs, hstep, hca, hall⟩ :=
    pipeline_short_circuits_after_first_stage engine0 "w1" "ABC-1" "t0" false []
      [("x", .vint 1)] (by decide) (by decide)
  refine ⟨s, hs, hstep, ?_⟩
  rw [hall "x" (by decide) (by decide)]
  decide

/-- C3: when the configured stage signals an error result (a dict whose
`error` value is a non-empty string), the final state has
`current_step = failed` and `error` set to the stage's error message, the
state is otherwise untouched — in particular no later stage's output keys
appear — no stage beyond `jira_analyst` runs, and the last progress event
delivered to the registered callback is terminal: `progress = 100`,
`completed = true`, with a message that includes the error. -/
theorem stage_error_fails_workflow (e : Engine) (wid ticket now : String)
    (evs : List (String × String × Int)) (d : Dict) (msg : String)
    (he : alGet d "error" = some (.vstr msg)) (hmsg : msg ≠ "") :
    (execute_workflow (start_workflow e wid ticket now true).1 wid
        (.ret evs d)).2.2 = ["jira_analyst"]
    ∧ (∃ s, get_workflow_status
          (execute_workflow (start_workflow e wid ticket now true).1 wid
            (.ret evs d)).1 wid = some s
        ∧ alGet s "current_step" = some (.vstr "failed")
        ∧ alGet s "error" = some (.vstr msg)
        ∧ ∀ k, k ≠ "current_step" → k ≠ "error" →
            alGet s k = alGet (initialState ticket now) k)
    ∧ (∃ pre, (execute_workflow (start_workflow e wid ticket now true).1 wid
          (.ret evs d)).2.1
        = pre ++ [⟨wid, "workflow", "Workflow failed: " ++ msg, 100, true⟩]
      ∧ ∃ x y, "Workflow failed: " ++ msg = x ++ msg ++ y) := by
  have hstore : alGet (start_workflow e wid ticket now true).1.active_workflows wid
      = some (initialState ticket now) := by
    show alGet (alInsert e.active_workflows wid (initialState ticket now)) wid = _
    rw [alGet_insert, if_pos rfl]
  have ht : optTruthy (alGet d "error") = true := by
    rw [he]
    show (!msg.isEmpty) = true
    cases h2 : msg.isEmpty with
    | true => exact absurd ((String.isEmpty_iff msg).mp h2) hmsg
    | false => rfl
  have hcb : (start_workflow e wid ticket now true).1.progress_callbacks.contains wid
      = true := cbInsert_contains e.progress_callbacks wid
  rw [execute_workflow_ret_err _ _ _ evs d hstore ht]
  have hmsgeq : ((alGet d "error").getD .vnone).pyStr = msg := by
    rw [he]
    rfl
  refine ⟨rfl, ?_, ?_⟩
  · refine ⟨alInsert (alInsert (initialState ticket now) "error"
        (.vstr (((alGet d "error").getD .vnone).pyStr)))
        "current_step" (.vstr "failed"), ?_, ?_, ?_, ?_⟩
    · show alGet (alInsert _ wid _) wid = _
      rw [alGet_insert, if_pos rfl]
    · rw [alGet_insert, if_pos rfl]
    · rw [alGet_insert, if_neg (by decide), alGet_insert, if_pos rfl, hmsgeq]
    · intro k hk1 hk2
      rw [alGet_insert, if_neg hk1, alGet_insert, if_neg hk2]
  · refine ⟨forwardEvents ((start_workflow e wid ticket now true).1.progress_callbacks.contains wid) wid evs, ?_, "Workflow failed: ", "", ?_⟩
    · show forwardEvents _ wid evs ++ _ = _
      rw [hcb, if_pos rfl, hmsgeq]
    · exact (String.append_empty _).symm

/-- Witness for C3: a stage returning `{error: "boom"}` leaves the
workflow `failed` with the error recorded. -/
theorem stage_error_fails_workflow_witness :
    ∃ s, get_workflow_status
          (execute_workflow (start_workflow engine0 "w1" "T-1" "t0" true).1 "w1"
            (.ret [] [("error", .vstr "boom")])).1 "w1" = some s
        ∧ alGet s "current_step" = some (.vstr "failed")
        ∧ alGet s "error" = some (.vstr "boom") := by
  obtain ⟨-, ⟨s, hs, hstep, herr, -⟩, -⟩ :=
    stage_error_fails_workflow engine0 "w1" "T-1" "t0" []
      [("error", .vstr "boom")] "boom" (by decide) (by decide)
  exact ⟨s, hs, hstep, herr⟩

/-! ### Trace lemmas -/

theorem mem_cbInsert (l : List String) (v w : String) (h : w ∈ cbInsert l v) :
    w ∈ l ∨ w = v := by
  unfold cbInsert at h
  by_cases hv : v ∈ l
  · rw [if_pos hv] at h
    exact Or.inl h
  · rw [if_neg hv] at h
    rcases List.mem_append.mp h with h2 | h2
    · exact Or.inl h2
    · exact Or.inr (List.mem_singleton.mp h2)

/-- Every operation preserves "each id with a registered callback is
stored": `start_workflow` registers the callback together with the state,
`cleanup_workflow` removes both, and `_execute_workflow` touches neither
key set. -/
theorem cb_subset_preserved (l : List Op) (e : Engine)
    (h : ∀ w, w ∈ e.progress_callbacks → (alGet e.active_workflows w).isSome = true) :
    ∀ w, w ∈ (run e l).progress_callbacks →
      (alGet (run e l).active_workflows w).isSome = true := by
  induction l generalizing e with
  | nil => exact h
  | cons op r ih =>
    apply ih
    intro w hw
    cases op with
    | wstart wid t n cb =>
      show (alGet (alInsert e.active_workflows wid (initialState t n)) w).isSome = true
      rw [alGet_insert]
      by_cases hww : w = wid
      · rw [if_pos hww]
        rfl
      · rw [if_neg hww]
        apply h
        revert hw
        show w ∈ (if cb then cbInsert e.progress_callbacks wid else e.progress_callbacks) → _
        cases cb with
        | false => exact id
        | true =>
          intro hw
          rcases mem_cbInsert _ _ _ hw with h2 | h2
          · exact h2
          · exact absurd h2 hww
    | exec wid o =>
      rw [show (opStep e (.exec wid o)).progress_callbacks = e.progress_callbacks from
        execute_workflow_callbacks e wid o] at hw
      by_cases hww : w = wid
      · subst hww
        cases hs : alGet e.active_workflows w with
        | none =>
          show (alGet (execute_workflow e w o).1.active_workflows w).isSome = true
          rw [execute_workflow_none e w o hs]
          exact h w hw
        | some st =>
          obtain ⟨s2, hs2, -⟩ := execute_workflow_terminal e w o st hs
          show (alGet (execute_workflow e w o).1.active_workflows w).isSome = true
          rw [hs2]
          rfl
      · show (alGet (execute_workflow e wid o).1.active_workflows w).isSome = true
        rw [execute_workflow_other e wid o w hww]
        exact h w hw
    | cleanup wid =>
      have hmem := List.mem_filter.mp hw
      have hww : w ≠ wid := by simpa using hmem.2
      show (alGet (alDelete e.active_workflows wid) w).isSome = true
      rw [alGet_delete_ne _ _ _ hww]
      exact h w hmem.1

/-- C10: along every trace of engine operations from a fresh engine, every
workflow id with a registered progress callback also has an entry in the
workflow state store — the callback key set is a subset of the stored id
set, because `start_workflow` registers the callback only together with
the state and `cleanup_workflow` removes both together. -/
theorem callbacks_subset_store (l : List Op) (w : String)
    (h : w ∈ (run engine0 l).progress_callbacks) :
    get_workflow_status (run engine0 l) w ≠ none := by
  have := cb_subset_preserved l engine0 (by intro w hw; cases hw) w h
  intro hnone
  rw [show get_workflow_status (run engine0 l) w
      = alGet (run engine0 l).active_workflows w from rfl] at hnone
  rw [hnone] at this
  cases this

/-- Witness for C10: after a `start_workflow` that registered a callback,
the id is stored. -/
theorem callbacks_subset_store_witness :
    get_workflow_status (run engine0 [.wstart "a" "T-1" "t0" true]) "a" ≠ none :=
  callbacks_subset_store [.wstart "a" "T-1" "t0" true] "a" (by decide)

theorem alGet_none_iff_not_mem {α : Type} (l : List (String × α)) (k : String) :
    alGet l k = none ↔ k ∉ l.map Prod.fst := by
  constructor
  · intro h
    induction l with
    | nil => simp
    | cons kv r ih =>
      rw [alGet_cons] at h
      by_cases hk : kv.1 = k
      · rw [if_pos hk] at h
        cases h
      · rw [if_neg hk] at h
        simp only [List.map_cons, List.mem_cons, not_or]
        exact ⟨fun he => hk he.symm, ih h⟩
  · exact alGet_eq_none_of_not_mem l k

theorem map_fst_alDelete {α : Type} (l : List (String × α)) (k : String) :
    (alDelete l k).map Prod.fst = (l.map Prod.fst).filter (fun x => x != k) := by
  induction l with
  | nil => rfl
  | cons kv r ih =>
    rw [alDelete_cons]
    by_cases h : kv.1 = k
    · rw [if_pos h]
      simp [List.filter_cons, h, ih]
    · rw [if_neg h]
      simp [List.filter_cons, h, ih]

theorem nodup_keys_alDelete {α : Type} (l : List (String × α)) (k : String)
    (hn : (l.map Prod.fst).Nodup) : ((alDelete l k).map Prod.fst).Nodup := by
  rw [map_fst_alDelete]
  exact hn.filter _

theorem nodup_keys_alInsert {α : Type} (l : List (String × α)) (k : String) (v : α)
    (hn : (l.map Prod.fst).Nodup) : ((alInsert l k v).map Prod.fst).Nodup := by
  show ((alDelete l k ++ [(k, v)]).map Prod.fst).Nodup
  rw [List.map_append, map_fst_alDelete]
  refine List.Nodup.append (hn.filter _) (List.nodup_singleton k) ?_
  intro a ha hb
  have hb2 : a = k := by simpa using hb
  subst hb2
  have := (List.mem_filter.mp ha).2
  simp at this

theorem length_alInsert_of_none {α : Type} (l : List (String × α)) (k : String) (v : α)
    (h : alGet l k = none) : (alInsert l k v).length = l.length + 1 := by
  show (alDelete l k ++ [(k, v)]).length = _
  rw [alDelete_eq_of_alGet_none l k h]
  simp

theorem length_alDelete_of_some {α : Type} (l : List (String × α)) (k : String) (v : α)
    (hn : (l.map Prod.fst).Nodup) (h : alGet l k = some v) :
    l.length = (alDelete l k).length + 1 := by
  induction l with
  | nil => cases h
  | cons kv r ih =>
    rw [alGet_cons] at h
    simp only [List.map_cons, List.nodup_cons] at hn
    by_cases hk : kv.1 = k
    · rw [alDelete_cons, if_pos hk,
          alDelete_eq_of_alGet_none r k (alGet_eq_none_of_not_mem r k (hk ▸ hn.1))]
      simp
    · rw [if_neg hk] at h
      rw [alDelete_cons, if_neg hk]
      simp [ih hn.2 h]

theorem length_alInsert_of_some {α : Type} (l : List (String × α)) (k : String) (v v2 : α)
    (hn : (l.map Prod.fst).Nodup) (h : alGet l k = some v2) :
    (alInsert l k v).length = l.length := by
  show (alDelete l k ++ [(k, v)]).length = _
  rw [List.length_append, List.length_singleton,
      length_alDelete_of_some l k v2 hn h]

/-- The stored state written back by `_execute_workflow` on a stored id
is a rebinding of that id. -/
theorem execute_workflow_store_shape (e : Engine) (wid : String) (o : AgentOutcome)
    (st : Dict) (hs : alGet e.active_workflows wid = some st) :
    ∃ s2, (execute_workflow e wid o).1.active_workflows
      = alInsert e.active_workflows wid s2 := by
  cases o with
  | exc evs msg =>
    rw [execute_workflow_exc e wid st evs msg hs]
    exact ⟨_, rfl⟩
  | ret evs d =>
    by_cases ht : optTruthy (alGet d "error")
    · rw [execute_workflow_ret_err e wid st evs d hs ht]
      exact ⟨_, rfl⟩
    · rw [execute_workflow_ret_ok e wid st evs d hs (by simpa using ht)]
      exact ⟨_, rfl⟩

theorem bool_and_split {a b : Bool} (h : (a && b) = true) : a = true ∧ b = true := by
  cases a <;> cases b <;> simp_all

/-- Along a trace whose `start_workflow` ids are fresh and whose cleanups
all target a stored id, the store's size changes by +1 per start and −1
per cleanup (and `_execute_workflow` never changes it). -/
theorem run_length_good (l : List Op) (e : Engine)
    (hn : (e.active_workflows.map Prod.fst).Nodup)
    (hg : goodTrace e l = true) :
    ((run e l).active_workflows.length : Int)
      = e.active_workflows.length + countStarts l - countCleanups l := by
  induction l generalizing e with
  | nil =>
    show (e.active_workflows.length : Int) = e.active_workflows.length + 0 - 0
    omega
  | cons op r ih =>
    show ((run (opStep e op) r).active_workflows.length : Int) = _
    cases op with
    | wstart wid t n cb =>
      have hg2 := bool_and_split (show ((alGet e.active_workflows wid).isNone
          && goodTrace (opStep e (.wstart wid t n cb)) r) = true from hg)
      have habs : alGet e.active_workflows wid = none :=
        Option.isNone_iff_eq_none.mp hg2.1
      have hlen : (opStep e (.wstart wid t n cb)).active_workflows.length
          = e.active_workflows.length + 1 :=
        length_alInsert_of_none e.active_workflows wid _ habs
      have hnd : ((opStep e (.wstart wid t n cb)).active_workflows.map Prod.fst).Nodup :=
        nodup_keys_alInsert e.active_workflows wid _ hn
      rw [ih (opStep e (.wstart wid t n cb)) hnd hg2.2, hlen]
      show _ = (e.active_workflows.length : Int) + (countStarts r + 1) - countCleanups r
      omega
    | exec wid o =>
      have hg2 := bool_and_split (show (true
          && goodTrace (opStep e (.exec wid o)) r) = true from hg)
      have hlen : (opStep e (.exec wid o)).active_workflows.length
          = e.active_workflows.length := by
        cases hs : alGet e.active_workflows wid with
        | none =>
          show (execute_workflow e wid o).1.active_workflows.length = _
          rw [execute_workflow_none e wid o hs]
        | some st =>
          obtain ⟨s2, hsh⟩ := execute_workflow_store_shape e wid o st hs
          show (execute_workflow e wid o).1.active_workflows.length = _
          rw [hsh]
          exact length_alInsert_of_some e.active_workflows wid s2 st hn hs
      have hnd : ((opStep e (.exec wid o)).active_workflows.map Prod.fst).Nodup := by
        cases hs : alGet e.active_workflows wid with
        | none =>
          show ((execute_workflow e wid o).1.active_workflows.map Prod.fst).Nodup
          rw [execute_workflow_none e wid o hs]
          exact hn
        | some st =>
          obtain ⟨s2, hsh⟩ := execute_workflow_store_shape e wid o st hs
          show ((execute_workflow e wid o).1.active_workflows.map Prod.fst).Nodup
          rw [hsh]
          exact nodup_keys_alInsert e.active_workflows wid s2 hn
      rw [ih (opStep e (.exec wid o)) hnd hg2.2, hlen]
      show _ = (e.active_workflows.length : Int) + countStarts r - countCleanups r
      omega
    | cleanup wid =>
      have hg2 := bool_and_split (show ((alGet e.active_workflows wid).isSome
          && goodTrace (opStep e (.cleanup wid)) r) = true from hg)
      obtain ⟨v, hv⟩ := Option.isSome_iff_exists.mp hg2.1
      have hlen : e.active_workflows.length
          = (opStep e (.cleanup wid)).active_workflows.length + 1 :=
        length_alDelete_of_some e.active_workflows wid v hn hv
      have hnd : ((opStep e (.cleanup wid)).active_workflows.map Prod.fst).Nodup :=
        nodup_keys_alDelete e.active_workflows wid hn
      rw [ih (opStep e (.cleanup wid)) hnd hg2.2]
      show _ = (e.active_workflows.length : Int) + countStarts r - (countCleanups r + 1)
      omega

/-- C9 (counterexample): the claimed equation "number of stored workflows
= number of `start_workflow` calls − number of `cleanup` calls" fails on
the trace consisting of one `cleanup_workflow` call with an unknown id:
`cleanup_workflow` is a no-op on an absent id (`workflow_engine.py` lines
130–135), so the store stays empty (count 0) while the claimed value is
0 − 1 = −1. -/
theorem workflow_count_cex :
    ¬ (((get_all_workflows (run engine0 [.cleanup "w"])).length : Int)
        = countStarts [.cleanup "w"] - countCleanups [.cleanup "w"]) := by
  decide

/-- C9 (amended): at every point of a trace in which every
`start_workflow` call uses a fresh id (as uuid4 ids are) and every
`cleanup_workflow` call targets a currently stored id, the number of
entries returned by `get_all_workflows` equals the number of
`start_workflow` calls made so far minus the number of `cleanup_workflow`
calls made so far. -/
theorem workflow_count_matches_calls (l : List Op)
    (hg : goodTrace engine0 l = true) :
    ((get_all_workflows (run engine0 l)).length : Int)
      = countStarts l - countCleanups l := by
  have h := run_length_good l engine0 (by simp [engine0]) hg
  simpa [get_all_workflows, engine0] using h

/-- Witness for C9 at a concrete trace: two starts and one effective
cleanup leave one stored workflow, and 2 − 1 = 1. -/
theorem workflow_count_matches_calls_witness :
    ((get_all_workflows (run engine0
        [.wstart "a" "T-1" "t0" false, .cleanup "a", .wstart "b" "T-2" "t1" false])).length : Int)
      = countStarts [.wstart "a" "T-1" "t0" false, .cleanup "a", .wstart "b" "T-2" "t1" false]
        - countCleanups [.wstart "a" "T-1" "t0" false, .cleanup "a", .wstart "b" "T-2" "t1" false] :=
  workflow_count_matches_calls
    [.wstart "a" "T-1" "t0" false, .cleanup "a", .wstart "b" "T-2" "t1" false] (by decide)

theorem wfb_append (s x : List String) (l1 l2 : List Op) :
    wfb s x (l1 ++ l2)
      = (wfb s x l1 && wfb (startedAfter s l1) (execedAfter x l1) l2) := by
  induction l1 generalizing s x with
  | nil => simp [wfb, startedAfter, execedAfter]
  | cons op r ih =>
    cases op with
    | wstart w t n cb =>
      show (!s.contains w && wfb (w :: s) x (r ++ l2)) = _
      rw [ih (w :: s) x]
      show _ = ((!s.contains w && wfb (w :: s) x r)
        && wfb (startedAfter (w :: s) r) (execedAfter x r) l2)
      rw [Bool.and_assoc]
    | exec w o =>
      show ((s.contains w && !x.contains w) && wfb s (w :: x) (r ++ l2)) = _
      rw [ih s (w :: x)]
      show ((s.contains w && !x.contains w) && (wfb s (w :: x) r
          && wfb (startedAfter s r) (execedAfter (w :: x) r) l2))
        = (((s.contains w && !x.contains w) && wfb s (w :: x) r)
          && wfb (startedAfter s r) (execedAfter (w :: x) r) l2)
      rw [← Bool.and_assoc]
    | cleanup w =>
      show wfb s x (r ++ l2) = _
      rw [ih s x]
      rfl

theorem not_mem_of_contains_false (l : List String) (w : String)
    (h : l.contains w = false) : w ∉ l := by
  intro hm
  have h2 : l.contains w = true := List.elem_iff.mpr hm
  rw [h2] at h
  cases h

/-- Every well-formed trace preserves `EngineInv`. -/
theorem run_preserves_inv (l : List Op) (e : Engine) (started execed : List String)
    (hwf : wfb started execed l = true) (hinv : EngineInv e started execed) :
    EngineInv (run e l) (startedAfter started l) (execedAfter execed l) := by
  induction l generalizing e started execed with
  | nil => exact hinv
  | cons op r ih =>
    obtain ⟨hinv1, hinv2⟩ := hinv
    cases op with
    | wstart w t n cb =>
      have hsplit := bool_and_split
        (show (!started.contains w && wfb (w :: started) execed r) = true from hwf)
      refine ih (opStep e (.wstart w t n cb)) (w :: started) execed hsplit.2 ⟨?_, ?_⟩
      · intro v hv
        rw [show (opStep e (.wstart w t n cb)).active_workflows
            = alInsert e.active_workflows w (initialState t n) from rfl,
          alGet_insert] at hv
        by_cases hvw : v = w
        · exact hvw ▸ List.mem_cons_self w started
        · rw [if_neg hvw] at hv
          exact List.mem_cons_of_mem w (hinv1 v hv)
      · intro v sv hv hvx
        rw [show (opStep e (.wstart w t n cb)).active_workflows
            = alInsert e.active_workflows w (initialState t n) from rfl,
          alGet_insert] at hv
        by_cases hvw : v = w
        · rw [if_pos hvw] at hv
          cases hv
          rfl
        · rw [if_neg hvw] at hv
          exact hinv2 v sv hv hvx
    | exec w o =>
      have hsplit := bool_and_split
        (show ((started.contains w && !execed.contains w)
          && wfb started (w :: execed) r) = true from hwf)
      have hsplit2 := bool_and_split hsplit.1
      refine ih (opStep e (.exec w o)) started (w :: execed) hsplit.2 ⟨?_, ?_⟩
      · intro v hv
        by_cases hvw : v = w
        · exact hvw ▸ List.elem_iff.mp hsplit2.1
        · rw [show (opStep e (.exec w o)).active_workflows
              = (execute_workflow e w o).1.active_workflows from rfl,
            execute_workflow_other e w o v hvw] at hv
          exact hinv1 v hv
      · intro v sv hv hvx
        by_cases hvw : v = w
        · exact absurd (hvw ▸ List.mem_cons_self w execed) hvx
        · rw [show (opStep e (.exec w o)).active_workflows
              = (execute_workflow e w o).1.active_workflows from rfl,
            execute_workflow_other e w o v hvw] at hv
          exact hinv2 v sv hv (fun hm => hvx (List.mem_cons_of_mem _ hm))
    | cleanup w =>
      refine ih (opStep e (.cleanup w)) started execed
        (show wfb started execed r = true from hwf) ⟨?_, ?_⟩
      · intro v hv
        by_cases hvw : v = w
        · rw [show (opStep e (.cleanup w)).active_workflows
              = alDelete e.active_workflows w from rfl, hvw, alGet_delete_self] at hv
          cases hv
        · rw [show (opStep e (.cleanup w)).active_workflows
              = alDelete e.active_workflows w from rfl, alGet_delete_ne _ _ _ hvw] at hv
          exact hinv1 v hv
      · intro v sv hv hvx
        by_cases hvw : v = w
        · rw [show (opStep e (.cleanup w)).active_workflows
              = alDelete e.active_workflows w from rfl, hvw, alGet_delete_self] at hv
          cases hv
        · rw [show (opStep e (.cleanup w)).active_workflows
              = alDelete e.active_workflows w from rfl, alGet_delete_ne _ _ _ hvw] at hv
          exact hinv2 v sv hv hvx

/-- C1 (counterexample): the concrete pipeline takes the transition
`step_1 → completed` (`jira_analyst → completed`): after a
`start_workflow` and the successful run of its execution task, the stored
`current_step` goes from `jira_analyst` directly to `completed`, and this
edge is not in the claimed edge set
queued→step_1→step_2→step_3→completed (plus failure edges) — the claimed
set only reaches `completed` from step_3. -/
theorem current_step_skip_edge_cex :
    (alGet (run engine0 [.wstart "w" "T-1" "t0" false]).active_workflows "w").map
        (fun s => alGet s "current_step") = some (some (.vstr "jira_analyst"))
    ∧ (alGet (opStep (run engine0 [.wstart "w" "T-1" "t0" false])
          (.exec "w" (.ret [] []))).active_workflows "w").map
        (fun s => alGet s "current_step") = some (some (.vstr "completed"))
    ∧ specClaimEdge "jira_analyst" "completed" = false := by
  decide

/-- C1 (amended): for every workflow, along every well-formed history of
engine operations (fresh uuid4 start ids; one execution task per started
workflow), every change of the stored `current_step` follows an edge of
the spec's edge set extended with the short-circuit edge
`step_1 → completed` (concretely, the changes are
`jira_analyst → completed` and `jira_analyst → failed`); and once
`current_step` is terminal (`completed` or `failed`) no operation ever
mutates the workflow's stored state again — the entry either stays
exactly the same or is removed wholesale by `cleanup_workflow`. -/
theorem current_step_transitions (l1 : List Op) (op : Op) (l2 : List Op) (w : String)
    (hwf : wfb [] [] (l1 ++ op :: l2) = true) :
    (∀ s1 s2, alGet (run engine0 l1).active_workflows w = some s1 →
        alGet (opStep (run engine0 l1) op).active_workflows w = some s2 →
        alGet s1 "current_step" ≠ alGet s2 "current_step" →
        ∃ a b, alGet s1 "current_step" = some (.vstr a)
          ∧ alGet s2 "current_step" = some (.vstr b)
          ∧ amendedEdge a b = true)
    ∧ (∀ s1, alGet (run engine0 l1).active_workflows w = some s1 →
        terminalStep (alGet s1 "current_step") = true →
        alGet (opStep (run engine0 l1) op).active_workflows w = some s1
        ∨ alGet (opStep (run engine0 l1) op).active_workflows w = none) := by
  rw [wfb_append] at hwf
  have hsplit := bool_and_split hwf
  have hinv := run_preserves_inv l1 engine0 [] [] hsplit.1
    ⟨(by intro v hv; cases hv), (by intro v sv hv hvx; cases hv)⟩
  obtain ⟨hinv1, hinv2⟩ := hinv
  cases op with
  | wstart w2 t n cb =>
    have hop := bool_and_split
      (show (!(startedAfter [] l1).contains w2
        && wfb (w2 :: startedAfter [] l1) (execedAfter [] l1) l2) = true from hsplit.2)
    have hfresh : w2 ∉ startedAfter [] l1 :=
      not_mem_of_contains_false _ _ (by
        cases hc : (startedAfter [] l1).contains w2
        · rfl
        · rw [hc] at hop
          cases hop.1)
    have hww2 : ∀ s1, alGet (run engine0 l1).active_workflows w = some s1 → w ≠ w2 := by
      intro s1 h1 he
      exact hfresh (he ▸ hinv1 w (by rw [h1]; rfl))
    constructor
    · intro s1 s2 h1 h2 hne
      have hne2 := hww2 s1 h1
      rw [show (opStep (run engine0 l1) (.wstart w2 t n cb)).active_workflows
          = alInsert (run engine0 l1).active_workflows w2 (initialState t n) from rfl,
        alGet_insert, if_neg hne2, h1] at h2
      cases h2
      exact absurd rfl hne
    · intro s1 h1 hterm
      left
      rw [show (opStep (run engine0 l1) (.wstart w2 t n cb)).active_workflows
          = alInsert (run engine0 l1).active_workflows w2 (initialState t n) from rfl,
        alGet_insert, if_neg (hww2 s1 h1)]
      exact h1
  | exec w2 o =>
    have hop := bool_and_split
      (show (((startedAfter [] l1).contains w2 && !(execedAfter [] l1).contains w2)
        && wfb (startedAfter [] l1) (w2 :: execedAfter [] l1) l2) = true from hsplit.2)
    have hop2 := bool_and_split hop.1
    have hnexec : w2 ∉ execedAfter [] l1 :=
      not_mem_of_contains_false _ _ (by
        cases hc : (execedAfter [] l1).contains w2
        · rfl
        · rw [hc] at hop2
          cases hop2.2)
    constructor
    · intro s1 s2 h1 h2 hne
      by_cases hvw : w = w2
      · subst hvw
        have hstep1 : alGet s1 "current_step" = some (.vstr "jira_analyst") :=
          hinv2 w s1 h1 hnexec
        obtain ⟨s2b, hs2b, hterm⟩ :=
          execute_workflow_terminal (run engine0 l1) w o s1 h1
        rw [show (opStep (run engine0 l1) (.exec w o)).active_workflows
            = (execute_workflow (run engine0 l1) w o).1.active_workflows from rfl,
          hs2b] at h2
        cases h2
        cases hterm with
        | inl hc => exact ⟨"jira_analyst", "completed", hstep1, hc, by decide⟩
        | inr hc => exact ⟨"jira_analyst", "failed", hstep1, hc, by decide⟩
      · rw [show (opStep (run engine0 l1) (.exec w2 o)).active_workflows
            = (execute_workflow (run engine0 l1) w2 o).1.active_workflows from rfl] at h2
        rw [execute_workflow_other (run engine0 l1) w2 o w hvw, h1] at h2
        cases h2
        exact absurd rfl hne
    · intro s1 h1 hterm
      by_cases hvw : w = w2
      · subst hvw
        have hstep1 : alGet s1 "current_step" = some (.vstr "jira_analyst") :=
          hinv2 w s1 h1 hnexec
        rw [hstep1] at hterm
        exact absurd hterm (by decide)
      · left
        rw [show (opStep (run engine0 l1) (.exec w2 o)).active_workflows
            = (execute_workflow (run engine0 l1) w2 o).1.active_workflows from rfl,
          execute_workflow_other (run engine0 l1) w2 o w hvw]
        exact h1
  | cleanup w2 =>
    constructor
    · intro s1 s2 h1 h2 hne
      by_cases hvw : w = w2
      · rw [show (opStep (run engine0 l1) (.cleanup w2)).active_workflows
            = alDelete (run engine0 l1).active_workflows w2 from rfl,
          hvw, alGet_delete_self] at h2
        cases h2
      · rw [show (opStep (run engine0 l1) (.cleanup w2)).active_workflows
            = alDelete (run engine0 l1).active_workflows w2 from rfl,
          alGet_delete_ne _ _ _ hvw, h1] at h2
        cases h2
        exact absurd rfl hne
    · intro s1 h1 hterm
      by_cases hvw : w = w2
      · right
        rw [show (opStep (run engine0 l1) (.cleanup w2)).active_workflows
            = alDelete (run engine0 l1).active_workflows w2 from rfl,
          hvw, alGet_delete_self]
      · left
        rw [show (opStep (run engine0 l1) (.cleanup w2)).active_workflows
            = alDelete (run engine0 l1).active_workflows w2 from rfl,
          alGet_delete_ne _ _ _ hvw]
        exact h1

/-- Witness for C1: in the concrete two-operation history (start then
successful execution) of workflow `w`, the observed step change is along
an amended edge (`jira_analyst → completed`). -/
theorem current_step_transitions_witness :
    ∃ a b, alGet (initialState "T-1" "t0") "current_step" = some (.vstr a)
      ∧ alGet (alInsert (alInsert (alInsert (dictUpdate (initialState "T-1" "t0") [])
            "currentAgent" (.vstr "completed")) "current_step" (.vstr "completed"))
            "currentAgent" (.vstr "completed")) "current_step" = some (.vstr b)
      ∧ amendedEdge a b = true :=
  (current_step_transitions [.wstart "w" "T-1" "t0" false] (.exec "w" (.ret [] [])) [] "w"
      (by decide)).1 (initialState "T-1" "t0")
    (alInsert (alInsert (alInsert (dictUpdate (initialState "T-1" "t0") [])
        "currentAgent" (.vstr "completed")) "current_step" (.vstr "completed"))
        "currentAgent" (.vstr "completed"))
    (by decide) (by decide) (by decide)
